import Mathlib

/-!
Verification of the GOS-Chic wallpaper generator (`gos_chic.py`).

A shallow embedding of the tile-compositing and placement engine of
`gos_chic.py` together with proofs about it.

Conventions of the embedding:

* A PIL `RGBA` image is a width, a height and a total pixel function
  `Nat → Nat → RGBA`; only the values at `x < width`, `y < height` are
  meaningful (PIL would raise on any other access, and no embedded code path
  reads out of bounds).
* A PIL `L` (single-channel) image is the same with `Nat` pixels.
* Python `float` arithmetic is modelled by exact rationals `ℚ`; `int(x)`
  truncates toward zero, `math.ceil` is `⌈·⌉`, `round` rounds half to even.
* `Image.paste(src, box, mask)` uses Pillow's exact per-channel blend
  `MULDIV255(dest, 255-m) + MULDIV255(src, m)` where
  `MULDIV255(a,b) = ((t >>> 8) + t) >>> 8`, `t = a*b + 128`.
* External collaborators (the cairosvg rasterizer, Pillow's bicubic
  rotate/resize) are passed in as opaque function parameters.
* Fallible Python code (raised exceptions) is modelled with `Option`,
  `none` marking a raised exception.
-/

namespace GosChic

/-- One RGBA pixel; channel values are 0..255 in every reachable use. -/
structure RGBA where
  r : Nat
  g : Nat
  b : Nat
  a : Nat
deriving DecidableEq

/-- An RGBA image: PIL `Image` in mode `"RGBA"` (or `"RGB"`, with `a = 255`
everywhere). -/
structure Img where
  width : Nat
  height : Nat
  px : Nat → Nat → RGBA

/-- A single-channel image: PIL `Image` in mode `"L"` (used for alpha masks). -/
structure LImg where
  width : Nat
  height : Nat
  px : Nat → Nat → Nat

/-- Pillow's `MULDIV255(a, b, tmp)`: exact `(a * b) / 255` with rounding,
computed as `(((a*b+128) >> 8) + (a*b+128)) >> 8`. -/
def muldiv255 (a b : Nat) : Nat :=
  let t := a * b + 128
  (t / 256 + t) / 256

/-- Pillow's `BLEND(mask, in1, in2)` used by `Image.paste` with a mask. -/
def blendChan (m d s : Nat) : Nat :=
  muldiv255 d (255 - m) + muldiv255 s m

/-- Model of `Image.new("RGBA", (w, h), c)`. -/
def newRGBA (w h : Nat) (c : RGBA) : Img :=
  ⟨w, h, fun _ _ => c⟩

/-- Model of `Image.new("RGB", (w, h), c)` (alpha pinned at 255). -/
def newRGB (w h : Nat) (c : Nat × Nat × Nat) : Img :=
  ⟨w, h, fun _ _ => ⟨c.1, c.2.1, c.2.2, 255⟩⟩

/-- Model of `img.split()[3]`: the alpha band of an RGBA image as an `L` image. -/
def alphaBand (i : Img) : LImg :=
  ⟨i.width, i.height, fun x y => (i.px x y).a⟩

/-- Model of `dest.paste(src, (ox, oy), mask)` with an `L` mask aligned with `src`
(Pillow clips the pasted region to the destination rectangle; pixels outside
the shifted source rectangle keep the destination value). The result of the
mutation is returned as a new image. -/
def pasteMaskL (dest src : Img) (m : LImg) (ox oy : Int) : Img :=
  ⟨dest.width, dest.height, fun x y =>
    let sx : Int := (x : Int) - ox
    let sy : Int := (y : Int) - oy
    if 0 ≤ sx ∧ sx < src.width ∧ 0 ≤ sy ∧ sy < src.height then
      let mv := m.px sx.toNat sy.toNat
      let d := dest.px x y
      let s := src.px sx.toNat sy.toNat
      ⟨blendChan mv d.r s.r, blendChan mv d.g s.g, blendChan mv d.b s.b,
        blendChan mv d.a s.a⟩
    else dest.px x y⟩

/-- Model of `dest.paste(src, (ox, oy), mask)` for an RGB `dest` (the wallpaper
canvas): the colour channels are blended, the canvas stays fully opaque. -/
def pasteMaskRGB (dest src : Img) (m : LImg) (ox oy : Int) : Img :=
  ⟨dest.width, dest.height, fun x y =>
    let sx : Int := (x : Int) - ox
    let sy : Int := (y : Int) - oy
    if 0 ≤ sx ∧ sx < src.width ∧ 0 ≤ sy ∧ sy < src.height then
      let mv := m.px sx.toNat sy.toNat
      let d := dest.px x y
      let s := src.px sx.toNat sy.toNat
      ⟨blendChan mv d.r s.r, blendChan mv d.g s.g, blendChan mv d.b s.b, 255⟩
    else dest.px x y⟩

/-- Python `int(q)` on a float value modelled as `ℚ`: truncation toward 0. -/
def pyTrunc (q : ℚ) : Int :=
  if 0 ≤ q then ⌊q⌋ else -⌊-q⌋

/-- Python `round(q)` (banker's rounding: ties go to the even integer). -/
def pyRound (q : ℚ) : Int :=
  let f := ⌊q⌋
  let r := q - f
  if r < 1/2 then f
  else if 1/2 < r then f + 1
  else if f % 2 = 0 then f else f + 1

/-- The guarded interpolation denominator of `make_vertical_gradient`:
`h - 1 if h > 1 else 1`. -/
def gradDenom (h : Nat) : Nat :=
  if h > 1 then h - 1 else 1

/-- Model of `make_vertical_gradient(size, top_rgb, bottom_rgb)` (lines 66-76):
a fully opaque vertical linear interpolation between `top` and `bottom`. -/
def make_vertical_gradient (w h : Nat) (top bottom : Nat × Nat × Nat) : Img :=
  ⟨w, h, fun _ y =>
    let t : ℚ := (y : ℚ) / (gradDenom h : ℚ)
    ⟨(pyTrunc ((top.1 : ℚ) * (1 - t) + (bottom.1 : ℚ) * t)).toNat,
     (pyTrunc ((top.2.1 : ℚ) * (1 - t) + (bottom.2.1 : ℚ) * t)).toNat,
     (pyTrunc ((top.2.2 : ℚ) * (1 - t) + (bottom.2.2 : ℚ) * t)).toNat,
     255⟩⟩

/-- Model of `apply_fill_with_mask(fill_img, mask_img)` (lines 78-81): paste `fill`
through `mask` onto a fresh transparent canvas of `fill`'s size. -/
def apply_fill_with_mask (fill : Img) (m : LImg) : Img :=
  pasteMaskL (newRGBA fill.width fill.height ⟨0, 0, 0, 0⟩) fill m 0 0

/-- Model of `recolor_flat(mask_img, rgb)` (lines 113-115). -/
def recolor_flat (m : LImg) (rgb : Nat × Nat × Nat) : Img :=
  apply_fill_with_mask (newRGBA m.width m.height ⟨rgb.1, rgb.2.1, rgb.2.2, 255⟩) m

/-- Clamp an index into `[0, n-1]` (Pillow's rank filters `expand` the image
by replicating its edge pixels before taking the window). -/
def clampIdx (n : Nat) (i : Int) : Nat :=
  (max 0 (min ((n : Int) - 1) i)).toNat

/-- Model of `mask.filter(ImageFilter.MaxFilter(3))`: 3×3 dilation with
replicate-edge handling. -/
def maxFilter3 (m : LImg) : LImg :=
  ⟨m.width, m.height, fun x y =>
    let g := fun (i j : Int) => m.px (clampIdx m.width i) (clampIdx m.height j)
    List.foldr max 0
      [g ((x : Int) - 1) ((y : Int) - 1), g (x : Int) ((y : Int) - 1),
       g ((x : Int) + 1) ((y : Int) - 1),
       g ((x : Int) - 1) (y : Int), g (x : Int) (y : Int),
       g ((x : Int) + 1) (y : Int),
       g ((x : Int) - 1) ((y : Int) + 1), g (x : Int) ((y : Int) + 1),
       g ((x : Int) + 1) ((y : Int) + 1)]⟩

/-- Model of `build_tile_variants(mask, style)` (lines 117-143): the Tile Styler.
Returns the per-row tile selector; `none` models the final
`raise ValueError("Unknown style")`. -/
def build_tile_variants (mask : LImg) (style : String) : Option (Nat → Img) :=
  if style = "gradient" then
    let grad := make_vertical_gradient mask.width mask.height (30, 30, 30) (10, 10, 10)
    let base := apply_fill_with_mask grad mask
    some (fun _ => base)
  else if style = "glossmix" then
    let grad := make_vertical_gradient mask.width mask.height (35, 35, 35) (12, 12, 12)
    let glossy := apply_fill_with_mask grad mask
    let matte := recolor_flat mask (28, 28, 28)
    some (fun row => if row % 2 = 0 then glossy else matte)
  else if style = "emboss" then
    let dilated := maxFilter3 mask
    let shadow_rgba := apply_fill_with_mask (newRGBA mask.width mask.height ⟨8, 8, 12, 255⟩) dilated
    let base_rgba := apply_fill_with_mask (newRGBA mask.width mask.height ⟨25, 25, 25, 255⟩) mask
    some (fun _ =>
      let canvas := newRGBA mask.width mask.height ⟨0, 0, 0, 0⟩
      let canvas := pasteMaskL canvas shadow_rgba (alphaBand shadow_rgba) 2 2
      pasteMaskL canvas base_rgba (alphaBand base_rgba) 0 0)
  else none

/-- A 5×5 test mask that is opaque only at pixel (1,1); the emboss drop
shadow lands on transparent pixels such as (2,2). -/
def c1Mask : LImg := ⟨5, 5, fun x y => if x = 1 ∧ y = 1 then 255 else 0⟩

/-- A fully transparent 1×1 mask, used as the witness input for C1. -/
def c1WMask : LImg := ⟨1, 1, fun _ _ => 0⟩

/-! Section: Color parsing (`parse_accent_color`, lines 84-112, and the FP center
color parse in `main`, line 403) -/

/-- ASCII whitespace for Python's `str.strip()`. -/
def isSpaceChar (c : Char) : Bool :=
  c = ' ' ∨ c = '\t' ∨ c = '\n' ∨ c = '\r' ∨ c = '\x0b' ∨ c = '\x0c'

/-- Python `str.strip()` on a list of characters. -/
def stripChars (l : List Char) : List Char :=
  ((l.dropWhile isSpaceChar).reverse.dropWhile isSpaceChar).reverse

/-- The value of a hexadecimal digit, `none` for any other character. -/
def digitValHex (c : Char) : Option Nat :=
  if '0' ≤ c ∧ c ≤ '9' then some (c.toNat - '0'.toNat)
  else if 'a' ≤ c ∧ c ≤ 'f' then some (c.toNat - 'a'.toNat + 10)
  else if 'A' ≤ c ∧ c ≤ 'F' then some (c.toNat - 'A'.toNat + 10)
  else none

/-- The value of a decimal digit, `none` for any other character. -/
def digitValDec (c : Char) : Option Nat :=
  if '0' ≤ c ∧ c ≤ '9' then some (c.toNat - '0'.toNat) else none

/-- Digit-sequence part of Python `int(s, base)`: digits with single
underscores allowed between digits (`1_0`), rejecting leading, trailing or
doubled underscores. -/
def parseDigits (dv : Char → Option Nat) (base : Nat) : List Char → Nat → Option Nat
  | [], acc => some acc
  | '_' :: c :: rest, acc =>
      match dv c with
      | some d => parseDigits dv base rest (acc * base + d)
      | none => none
  | ['_'], _ => none
  | c :: rest, acc =>
      match dv c with
      | some d => parseDigits dv base rest (acc * base + d)
      | none => none

/-- Python `int(s, base)` (for bases 10 and 16): optional surrounding
whitespace, optional sign, then a non-empty digit sequence. `none` models a
raised `ValueError`. -/
def pyInt (dv : Char → Option Nat) (base : Nat) (l : List Char) : Option Int :=
  let core : List Char → Option Int := fun t =>
    match t with
    | [] => none
    | c :: rest =>
        match dv c with
        | some d => (parseDigits dv base rest d).map Int.ofNat
        | none => none
  match stripChars l with
  | '+' :: rest => core rest
  | '-' :: rest => (core rest).map (fun n => -n)
  | rest => core rest

/-- Python `s[a:b]` on a list of characters (slices clamp silently). -/
def pySlice (l : List Char) (a b : Nat) : List Char :=
  (l.drop a).take (b - a)

/-- Python `s.split(",")`. -/
def splitComma : List Char → List (List Char)
  | [] => [[]]
  | c :: rest =>
      if c = ',' then [] :: splitComma rest
      else
        match splitComma rest with
        | h :: t => (c :: h) :: t
        | [] => [[c]]

/-- The preset table of `parse_accent_color`; the outer `Option` is
membership in the dict, the inner one is the stored value (`None` for the
`"none"` preset). -/
def presetColor (s : String) : Option (Option (Int × Int × Int)) :=
  if s = "gold" then some (some (160, 140, 60))
  else if s = "steel" then some (some (70, 70, 70))
  else if s = "red" then some (some (140, 40, 40))
  else if s = "none" then some none
  else none

/-- The `#RRGGBB` branch of `parse_accent_color` (lines 96-100), applied to
the stripped string: `none` both when the shape test fails and when an
`int(..., 16)` call raises (the `except ValueError: pass`). -/
def hexBranch (s : List Char) : Option (Int × Int × Int) :=
  if s.take 1 = ['#'] ∧ s.length = 7 then
    match pyInt digitValHex 16 (pySlice s 1 3), pyInt digitValHex 16 (pySlice s 3 5),
        pyInt digitValHex 16 (pySlice s 5 7) with
    | some r, some g, some b => some (r, g, b)
    | _, _, _ => none
  else none

/-- Python `max(0, min(255, v))`. -/
def clampChan (v : Int) : Int := max 0 (min 255 v)

/-- The `"R,G,B"` branch of `parse_accent_color` (lines 102-110), applied to
the stripped string. -/
def commaBranch (s : List Char) : Option (Int × Int × Int) :=
  if s.contains ',' then
    let parts := splitComma s
    if parts.length = 3 then
      match pyInt digitValDec 10 (stripChars ((parts.get? 0).getD [])),
          pyInt digitValDec 10 (stripChars ((parts.get? 1).getD [])),
          pyInt digitValDec 10 (stripChars ((parts.get? 2).getD [])) with
      | some r, some g, some b => some (clampChan r, clampChan g, clampChan b)
      | _, _, _ => none
    else none
  else none

/-- Model of `parse_accent_color(accent_color)` (lines 84-112). The function always
returns: `none` is the Python value `None` (selected only by the `"none"`
preset), never an exception. -/
def parse_accent_color (accent_color : String) : Option (Int × Int × Int) :=
  match presetColor accent_color with
  | some v => v
  | none =>
    match hexBranch (stripChars accent_color.data) with
    | some rgb => some rgb
    | none =>
      match commaBranch (stripChars accent_color.data) with
      | some rgb => some rgb
      | none => some (160, 140, 60)

/-- The FP center color parse in `main` (line 403):
`tuple(int(args.fp_center_rgb.lstrip("#")[i:i+2], 16) for i in (0, 2, 4))`.
Unlike `parse_accent_color` there is no `except` around it, so here `none`
models an uncaught `ValueError` that fails the run. -/
def fpCenterParse (s : String) : Option (Int × Int × Int) :=
  let t := s.data.dropWhile (fun c => c = '#')
  match pyInt digitValHex 16 (pySlice t 0 2), pyInt digitValHex 16 (pySlice t 2 4),
      pyInt digitValHex 16 (pySlice t 4 6) with
  | some r, some g, some b => some (r, g, b)
  | _, _, _ => none

/-! Section: The tessellated weave placer's index range and cell layout
(`build_wallpaper`, lines 279-306) -/

/-- Model of `math.ceil(a / b)` as computed by Python's true division on ints. -/
def mceil (a : Int) (b : Nat) : Int := ⌈(a : ℚ) / (b : ℚ)⌉

/-- The index bound `min_i = -math.ceil((anchor_x + S) / S)` (line 291). -/
def weaveMinI (anchor_x : Int) (S : Nat) : Int := -(mceil (anchor_x + S) S)

/-- The index bound `max_i = math.ceil((screen_w - anchor_x) / S)` (line 292). -/
def weaveMaxI (screen_w anchor_x : Int) (S : Nat) : Int := mceil (screen_w - anchor_x) S

/-- The index bound `min_j = -math.ceil((anchor_y + S) / S)` (line 293). -/
def weaveMinJ (anchor_y : Int) (S : Nat) : Int := -(mceil (anchor_y + S) S)

/-- The index bound `max_j = math.ceil((screen_h - anchor_y) / S)` (line 294). -/
def weaveMaxJ (screen_h anchor_y : Int) (S : Nat) : Int := mceil (screen_h - anchor_y) S

/-- The top-left corner of weave cell `(i, j)` (lines 298-304): base position
`anchor + (i·S, j·S)`, with odd rows shifted right by `S // 2`. -/
def weaveCellPos (anchor_x anchor_y : Int) (S : Nat) (i j : Int) : Int × Int :=
  (if j % 2 ≠ 0 then anchor_x + i * S + (S / 2 : Nat) else anchor_x + i * S,
   anchor_y + j * S)

/-- Cell parity selector (line 302): `true` picks the `+weave_deg` rotation
`tA`, `false` picks `tB`. -/
def weaveVariantA (i j : Int) : Bool := (i + j) % 2 == 0

/-- Which of the two grid placers paints the field. -/
inductive PlacerKind where
  | simple
  | tessellated
deriving DecidableEq

/-- The field-layout dispatch of `build_wallpaper` (line 279):
`if weave and tessellate:` runs the tessellated weave placer, the `else`
branch runs the simple placer. -/
def placerChosen (weave tessellate : Bool) : PlacerKind :=
  if weave && tessellate then .tessellated else .simple

/-! Section: The Hole Isolator (`flood_fill_inner_hole`, lines 145-172) -/

/-- A pixel coordinate (Python integer pair; may be out of bounds). -/
abbrev Pt := Int × Int

/-- The 4-connected neighbours `((x+1,y),(x-1,y),(x,y+1),(x,y-1))` of
line 168. -/
def nbrs (p : Pt) : List Pt :=
  [(p.1 + 1, p.2), (p.1 - 1, p.2), (p.1, p.2 + 1), (p.1, p.2 - 1)]

/-- A pixel the flood fill may occupy: in bounds with alpha exactly 0. -/
def okPix (w h : Nat) (alpha : Pt → Nat) (p : Pt) : Prop :=
  0 ≤ p.1 ∧ p.1 < (w : Int) ∧ 0 ≤ p.2 ∧ p.2 < (h : Int) ∧ alpha p = 0

instance okPix_decidable (w h : Nat) (alpha : Pt → Nat) (p : Pt) :
    Decidable (okPix w h alpha p) := by
  unfold okPix
  infer_instance

/-- The inner `for nx, ny in (...)` loop of lines 168-171: visit the listed
neighbour candidates, appending fresh in-bounds alpha-0 pixels to both the
visited list and the queue. Returns `(visited, queue)`. -/
def visitNbrs (w h : Nat) (alpha : Pt → Nat) :
    List Pt → List Pt → List Pt → List Pt × List Pt
  | vis, q, [] => (vis, q)
  | vis, q, n :: ns =>
      if 0 ≤ n.1 ∧ n.1 < (w : Int) ∧ 0 ≤ n.2 ∧ n.2 < (h : Int) ∧ n ∉ vis ∧
          alpha n = 0 then
        visitNbrs w h alpha (vis ++ [n]) (q ++ [n]) ns
      else
        visitNbrs w h alpha vis q ns

/-- The `while q:` BFS loop of lines 165-171, with explicit fuel (the Python
loop is unbounded; `ffLoop_run` below shows fuel `w * h` always suffices).
Each iteration pops the queue head, marks it, and visits its neighbours.
Returns the marked list and the remaining queue. -/
def ffLoop (w h : Nat) (alpha : Pt → Nat) :
    Nat → List Pt → List Pt → List Pt → List Pt × List Pt
  | 0, q, _, mk => (mk, q)
  | _ + 1, [], _, mk => (mk, [])
  | fuel + 1, p :: rest, vis, mk =>
      let vq := visitNbrs w h alpha vis rest (nbrs p)
      ffLoop w h alpha fuel vq.2 vq.1 (mk ++ [p])

/-- The radii `range(1, min(w,h)//6, 3)` of line 152. -/
def ringRadii (stop : Nat) : List Int :=
  (List.range ((stop + 1) / 3)).map (fun k => ((1 + 3 * k : Nat) : Int))

/-- The seed-accumulation loop of lines 152-155: extend by the four cardinal
candidates at each radius, breaking once more than 50 seeds are collected. -/
def extendSeeds (cx cy : Int) : List Int → List Pt → List Pt
  | [], seeds => seeds
  | r :: rs, seeds =>
      let seeds' := seeds ++ [(cx + r, cy), (cx - r, cy), (cx, cy + r), (cx, cy - r)]
      if seeds'.length > 50 then seeds' else extendSeeds cx cy rs seeds'

/-- The full candidate seed list of lines 150-155: the geometric center
followed by the cardinal ring points. -/
def seedList (w h : Nat) : List Pt :=
  extendSeeds ((w / 2 : Nat) : Int) ((h / 2 : Nat) : Int) (ringRadii (min w h / 6))
    [(((w / 2 : Nat) : Int), ((h / 2 : Nat) : Int))]

/-- Read an `L` image as a total alpha function on integer coordinates
(only queried in bounds by the embedded code). -/
def alphaOf (a : LImg) : Pt → Nat :=
  fun p => a.px p.1.toNat p.2.toNat

/-- The seed search of lines 159-161: the first candidate that is in bounds
and has alpha exactly 0. -/
def findSeed (a : LImg) : Option Pt :=
  (seedList a.width a.height).find? (fun p =>
    decide (0 ≤ p.1 ∧ p.1 < (a.width : Int) ∧ 0 ≤ p.2 ∧ p.2 < (a.height : Int) ∧
      alphaOf a p = 0))

/-- The first candidate seed whose alpha is exactly 0 (the spec's phrasing of
the seed search; equal to `findSeed` whenever the image is non-empty, since
every candidate is then in bounds — see `findSeed_eq_seedFound`). -/
def seedFound (a : LImg) : Option Pt :=
  (seedList a.width a.height).find? (fun p => decide (alphaOf a p = 0))

/-- Model of `flood_fill_inner_hole(alpha_img)` (lines 145-172): the Hole Isolator.
If no seed is found the all-zero mask is returned; otherwise the BFS marks
every popped pixel 255. -/
def flood_fill_inner_hole (a : LImg) : LImg :=
  match findSeed a with
  | none => ⟨a.width, a.height, fun _ _ => 0⟩
  | some s =>
      let r := ffLoop a.width a.height (alphaOf a) (a.width * a.height) [s] [s] []
      ⟨a.width, a.height, fun x y => if ((x : Int), (y : Int)) ∈ r.1 then 255 else 0⟩

/-- The BFS end state (marked list, remaining queue) at the given fuel. -/
def floodRunFuel (a : LImg) (fuel : Nat) : List Pt × List Pt :=
  match findSeed a with
  | none => ([], [])
  | some s => ffLoop a.width a.height (alphaOf a) fuel [s] [s] []

/-- The BFS end state at the canonical fuel `w * h`. -/
def floodRun (a : LImg) : List Pt × List Pt :=
  floodRunFuel a (a.width * a.height)

/-- The 4-connected reachability relation from `s` through in-bounds pixels of alpha
exactly 0 (the seed itself included). -/
inductive Reach (w h : Nat) (alpha : Pt → Nat) (s : Pt) : Pt → Prop where
  | base : Reach w h alpha s s
  | step {p n : Pt} : Reach w h alpha s p → n ∈ nbrs p → okPix w h alpha n →
      Reach w h alpha s n

/-- The pixel grid as a finite set. -/
def gridF (w h : Nat) : Finset Pt :=
  Finset.Ico (0 : Int) (w : Int) ×ˢ Finset.Ico (0 : Int) (h : Int)

/-- The BFS loop invariant relating queue, visited list and marked list. -/
structure FFInv (w h : Nat) (alpha : Pt → Nat) (s : Pt)
    (q vis mk : List Pt) : Prop where
  qnd : q.Nodup
  visnd : vis.Nodup
  mknd : mk.Nodup
  qsub : ∀ p ∈ q, p ∈ vis
  qmk : ∀ p ∈ q, p ∉ mk
  part : ∀ p, p ∈ vis ↔ p ∈ mk ∨ p ∈ q
  ok : ∀ p ∈ vis, okPix w h alpha p
  reach : ∀ p ∈ vis, Reach w h alpha s p
  closed : ∀ p ∈ mk, ∀ n ∈ nbrs p, okPix w h alpha n → n ∈ vis

/-- A 3×3 test image transparent only at its center, the witness input for
C2: the hole isolator marks exactly the center pixel. -/
def c2WImg : LImg := ⟨3, 3, fun x y => if x = 1 ∧ y = 1 then 0 else 255⟩

/-! Section: The Accent Composer (`style_tinted_accent`, lines 174-202, and
`build_accent_with_center`, lines 204-228) -/

/-- The `clamp` helper of lines 177-179: `int(x)` clamped into `[0, 255]`. -/
def clamp255 (q : ℚ) : Nat := (max 0 (min 255 (pyTrunc q))).toNat

/-- Model of `style_tinted_accent(mask_rgba, style, rgb)` (lines 174-202): the accent
outline tinted toward `rgb` in the given style; unknown styles fall through
to a flat fill (line 202). -/
def style_tinted_accent (mask_rgba : Img) (style : String) (rgb : Nat × Nat × Nat) : Img :=
  if style = "gradient" then
    apply_fill_with_mask
      (make_vertical_gradient mask_rgba.width mask_rgba.height
        (clamp255 ((rgb.1 : ℚ) * (92 / 100)), clamp255 ((rgb.2.1 : ℚ) * (92 / 100)),
          clamp255 ((rgb.2.2 : ℚ) * (92 / 100)))
        (clamp255 ((rgb.1 : ℚ) * (70 / 100)), clamp255 ((rgb.2.1 : ℚ) * (70 / 100)),
          clamp255 ((rgb.2.2 : ℚ) * (70 / 100))))
      (alphaBand mask_rgba)
  else if style = "glossmix" then
    apply_fill_with_mask
      (make_vertical_gradient mask_rgba.width mask_rgba.height
        (clamp255 ((rgb.1 : ℚ) * (105 / 100)), clamp255 ((rgb.2.1 : ℚ) * (105 / 100)),
          clamp255 ((rgb.2.2 : ℚ) * (105 / 100)))
        (clamp255 ((rgb.1 : ℚ) * (75 / 100)), clamp255 ((rgb.2.1 : ℚ) * (75 / 100)),
          clamp255 ((rgb.2.2 : ℚ) * (75 / 100))))
      (alphaBand mask_rgba)
  else if style = "emboss" then
    pasteMaskL
      (pasteMaskL (newRGBA mask_rgba.width mask_rgba.height ⟨0, 0, 0, 0⟩)
        (apply_fill_with_mask (newRGBA mask_rgba.width mask_rgba.height ⟨8, 8, 12, 255⟩)
          (maxFilter3 (alphaBand mask_rgba)))
        (alphaBand (apply_fill_with_mask
          (newRGBA mask_rgba.width mask_rgba.height ⟨8, 8, 12, 255⟩)
          (maxFilter3 (alphaBand mask_rgba)))) 2 2)
      (apply_fill_with_mask (newRGBA mask_rgba.width mask_rgba.height ⟨25, 25, 25, 255⟩)
        (alphaBand mask_rgba))
      (alphaBand (apply_fill_with_mask
        (newRGBA mask_rgba.width mask_rgba.height ⟨25, 25, 25, 255⟩)
        (alphaBand mask_rgba))) 0 0
  else
    apply_fill_with_mask
      (newRGBA mask_rgba.width mask_rgba.height ⟨rgb.1, rgb.2.1, rgb.2.2, 255⟩)
      (alphaBand mask_rgba)

/-- Model of `build_accent_with_center(...)` (lines 204-228), with the rendered
`accent_rgba` (the result of `render_svg_to_png` + `Image.open`) passed in
from the external rasterizer. Interior hole fill first, outline on top. -/
def build_accent_with_center (accent_rgba : Img) (center_rgb : Nat × Nat × Nat)
    (outline_style : Option String) (outline_rgb : Nat × Nat × Nat) : Img :=
  let w := accent_rgba.width
  let h := accent_rgba.height
  let alpha := alphaBand accent_rgba
  let accent_outline :=
    match outline_style with
    | some st =>
        let styled := style_tinted_accent accent_rgba st outline_rgb
        pasteMaskL (newRGBA w h ⟨0, 0, 0, 0⟩) styled (alphaBand styled) 0 0
    | none =>
        pasteMaskL (newRGBA w h ⟨0, 0, 0, 0⟩)
          (newRGBA w h ⟨outline_rgb.1, outline_rgb.2.1, outline_rgb.2.2, 255⟩) alpha 0 0
  let inner_mask := flood_fill_inner_hole alpha
  let inner_gray :=
    pasteMaskL (newRGBA w h ⟨0, 0, 0, 0⟩)
      (newRGBA w h ⟨center_rgb.1, center_rgb.2.1, center_rgb.2.2, 255⟩) inner_mask 0 0
  pasteMaskL
    (pasteMaskL (newRGBA w h ⟨0, 0, 0, 0⟩) inner_gray (alphaBand inner_gray) 0 0)
    accent_outline (alphaBand accent_outline) 0 0

/-- A 9×9 test accent image whose alpha is a square ring (the border of
`[2,6]²`): its enclosed hole is `[3,5]²`, and the emboss drop shadow lands
on exterior pixels such as (7,7). -/
def c3Img : Img :=
  ⟨9, 9, fun x y =>
    if (2 ≤ x ∧ x ≤ 6 ∧ 2 ≤ y ∧ y ≤ 6) ∧ (x = 2 ∨ x = 6 ∨ y = 2 ∨ y = 6)
    then ⟨0, 0, 0, 255⟩ else ⟨0, 0, 0, 0⟩⟩

/-- A fully transparent 4×4 accent render, the witness input for C3. -/
def c3WImg : Img := ⟨4, 4, fun _ _ => ⟨0, 0, 0, 0⟩⟩

/-! Section: The Canvas Compositor (`build_wallpaper`, lines 229-369) -/

/-- The number of elements of Python `range(start, stop, step)` for a
nonzero step (0 when the range is empty; a zero step raises and is guarded
at the call sites). -/
def pyRangeCount (start stop step : Int) : Nat :=
  if 0 < step then (max 0 ((stop - start + step - 1) / step)).toNat
  else if step < 0 then (max 0 ((start - stop + (-step) - 1) / (-step))).toNat
  else 0

/-- Python `range(start, stop, step)` as a list. -/
def pyRange (start stop step : Int) : List Int :=
  (List.range (pyRangeCount start stop step)).map
    (fun (k : Nat) => start + step * (k : Int))

/-- Model of `range(lo, hi + 1)`: the inclusive index ranges of the weave placer. -/
def intRangeIncl (lo hi : Int) : List Int := pyRange lo (hi + 1) 1

/-- The configuration surface of `build_wallpaper` (its keyword parameters,
lines 229-251); Python floats are modelled as exact rationals. -/
structure Config where
  screen_w : Nat
  screen_h : Nat
  logo_px : Nat
  spacing_mult : ℚ
  style : String
  weave : Bool
  weave_deg : ℚ
  tessellate : Bool
  scalevar : Bool
  scale_every : Nat
  scale_factor : ℚ
  accent_color : String
  accent_x : ℚ
  accent_y : ℚ
  accent_scale : ℚ
  fp_mode : Bool
  fp_center_rgb : Nat × Nat × Nat
  fp_anchor_ratio_y : ℚ
  fp_scale : ℚ

/-- The external collaborators, passed in as opaque pure functions:
`render` is `render_svg_to_png` + `Image.open(...).convert("RGBA")` at a
pixel size; `rotate img deg expand` and `resize img (w, h)` are Pillow's
bicubic resampling operations. -/
structure Externals where
  render : Nat → Img
  rotate : Img → ℚ → Bool → Img
  resize : Img → Nat × Nat → Img

/-- The tessellated weave placer (lines 279-306). `none` models the
`ZeroDivisionError` Python would raise if the padded tile size were 0. -/
def paintWeaveField (ext : Externals) (cfg : Config) (base_tile : Img) (bg : Img)
    (acx acy : Int) : Option Img :=
  let pad : Nat := (⌈(cfg.logo_px : ℚ) * (35 / 100)⌉).toNat
  let S : Nat := base_tile.width + 2 * pad
  if S = 0 then none
  else
    let tile_padded :=
      pasteMaskL (newRGBA S S ⟨0, 0, 0, 0⟩) base_tile (alphaBand base_tile) pad pad
    let tA := ext.rotate tile_padded cfg.weave_deg false
    let tB := ext.rotate tile_padded (-cfg.weave_deg) false
    let anchor_x : Int := acx - ((S / 2 : Nat) : Int)
    let anchor_y : Int := acy - ((S / 2 : Nat) : Int)
    some ((intRangeIncl (weaveMinJ anchor_y S) (weaveMaxJ cfg.screen_h anchor_y S)).foldl
      (fun bg j =>
        (intRangeIncl (weaveMinI anchor_x S) (weaveMaxI cfg.screen_w anchor_x S)).foldl
          (fun bg i =>
            if i = 0 ∧ j = 0 then bg
            else
              let tile_img := if weaveVariantA i j then tA else tB
              let p := weaveCellPos anchor_x anchor_y S i j
              if p.1 < (cfg.screen_w : Int) ∧ p.2 < (cfg.screen_h : Int) ∧
                  0 < p.1 + S ∧ 0 < p.2 + S then
                pasteMaskRGB bg tile_img (alphaBand tile_img) p.1 p.2
              else bg) bg) bg)

/-- The simple grid placer (lines 308-336). `none` models the exceptions
Python would raise on a zero `range` step or a zero `scale_every` modulus. -/
def paintSimpleField (ext : Externals) (cfg : Config) (tile_for_row : Nat → Img)
    (tile_w tile_h : Nat) (bg : Img) (acx acy : Int) : Option Img :=
  let x_step : Int := pyRound ((tile_w : ℚ) * cfg.spacing_mult)
  let y_step : Int := pyRound ((tile_h : ℚ) * cfg.spacing_mult)
  if x_step = 0 ∨ y_step = 0 then none
  else if cfg.scalevar ∧ cfg.scale_every = 0 then none
  else
    let anchor_x : Int := acx - ((tile_w / 2 : Nat) : Int)
    let anchor_y : Int := acy - ((tile_h / 2 : Nat) : Int)
    some ((pyRange (-(y_step * 50)) ((cfg.screen_h : Int) + y_step * 50) y_step).foldl
      (fun bg dy =>
        (pyRange (-(x_step * 50)) ((cfg.screen_w : Int) + x_step * 50) x_step).foldl
          (fun bg dx =>
            if dx = 0 ∧ dy = 0 then bg
            else
              let x := anchor_x + dx
              let y := anchor_y + dy
              let row_idx : Int := if y_step ≠ 0 then Int.fdiv dy y_step else 0
              let tile0 := tile_for_row row_idx.natAbs
              let tile1 :=
                if cfg.scalevar ∧ row_idx.natAbs % cfg.scale_every = 0 then
                  ext.resize tile0
                    ((max 1 (pyTrunc ((tile0.width : ℚ) * cfg.scale_factor))).toNat,
                     (max 1 (pyTrunc ((tile0.height : ℚ) * cfg.scale_factor))).toNat)
                else tile0
              let tile2 :=
                if cfg.weave then
                  let parity : Int :=
                    if x_step ≠ 0 ∧ y_step ≠ 0 then Int.fdiv dx x_step + Int.fdiv dy y_step
                    else 0
                  ext.rotate tile1
                    (if parity % 2 = 0 then cfg.weave_deg else -cfg.weave_deg) true
                else tile1
              if x < (cfg.screen_w : Int) ∧ y < (cfg.screen_h : Int) ∧
                  0 < x + tile2.width ∧ 0 < y + tile2.height then
                pasteMaskRGB bg tile2 (alphaBand tile2) x y
              else bg) bg) bg)

/-- Channel triple from the parsed (Python-int) color; channel values are in
`[0, 255]` in every reachable use. -/
def toNatRGB (t : Int × Int × Int) : Nat × Nat × Nat :=
  (t.1.toNat, t.2.1.toNat, t.2.2.toNat)

/-- Model of `build_wallpaper(...)` (lines 229-364): render and style the base tile,
paint the field with the placer selected by `placerChosen`, then paste the
accent on top. Returns the final canvas (the PNG encoding of which is a pure
function of it); `none` models a raised exception. -/
def build_wallpaper (ext : Externals) (cfg : Config) : Option Img :=
  match build_tile_variants (alphaBand (ext.render cfg.logo_px)) cfg.style with
  | none => none
  | some tile_for_row =>
      let base_tile := tile_for_row 0
      let acx : Int :=
        if cfg.fp_mode then ((cfg.screen_w / 2 : Nat) : Int)
        else pyTrunc ((cfg.screen_w : ℚ) * cfg.accent_x)
      let acy : Int :=
        if cfg.fp_mode then pyTrunc ((cfg.screen_h : ℚ) * cfg.fp_anchor_ratio_y)
        else pyTrunc ((cfg.screen_h : ℚ) * cfg.accent_y)
      let accent_size_px : Nat :=
        if cfg.fp_mode then (pyTrunc ((cfg.logo_px : ℚ) * cfg.fp_scale)).toNat
        else (pyTrunc ((cfg.logo_px : ℚ) * cfg.accent_scale)).toNat
      let bg0 := newRGB cfg.screen_w cfg.screen_h (0, 0, 0)
      let bgField :=
        match placerChosen cfg.weave cfg.tessellate with
        | .tessellated => paintWeaveField ext cfg base_tile bg0 acx acy
        | .simple =>
            paintSimpleField ext cfg tile_for_row base_tile.width base_tile.height
              bg0 acx acy
      match bgField with
      | none => none
      | some bg =>
          let accent_img :=
            if cfg.fp_mode then
              build_accent_with_center (ext.render accent_size_px) cfg.fp_center_rgb
                (some cfg.style)
                (toNatRGB ((parse_accent_color cfg.accent_color).getD (160, 140, 60)))
            else
              match parse_accent_color cfg.accent_color with
              | none => style_tinted_accent (ext.render accent_size_px) cfg.style (30, 30, 30)
              | some rgb =>
                  style_tinted_accent (ext.render accent_size_px) cfg.style (toNatRGB rgb)
          let ax := acx - ((accent_img.width / 2 : Nat) : Int)
          let ay := acy - ((accent_img.height / 2 : Nat) : Int)
          some (pasteMaskRGB bg accent_img (alphaBand accent_img) ax ay)

/-- A concrete set of externals for the C8 witness: a blank rasterizer and
identity resampling ops. -/
def extW : Externals :=
  ⟨fun n => newRGBA n n ⟨0, 0, 0, 0⟩, fun i _ _ => i, fun i _ => i⟩

/-- A concrete configuration for the C8 witness (the script's defaults at a
small canvas). -/
def cfgW : Config :=
  ⟨64, 64, 8, 8 / 5, "gradient", false, 3, true, false, 4, 6 / 5, "gold",
   1 / 2, 1 / 5, 1, true, (31, 31, 31), 718 / 1000, 9 / 4⟩

/-- A 2×2 fully transparent image, the witness input for C10. -/
def c10WImg : LImg := ⟨2, 2, fun _ _ => 0⟩

-- ## Theorems

-- Basic arithmetic facts about the Pillow blend.

theorem muldiv255_zero_left (b : Nat) : muldiv255 0 b = 0 := by
  simp [muldiv255]

theorem muldiv255_zero_right (a : Nat) : muldiv255 a 0 = 0 := by
  simp [muldiv255]

set_option maxRecDepth 2048 in
theorem muldiv255_255 (a : Nat) (h : a ≤ 255) : muldiv255 a 255 = a := by
  revert h
  revert a
  decide

/-- Blending with mask value 0 keeps the destination channel. -/
theorem blendChan_zero_mask (d s : Nat) (h : d ≤ 255) : blendChan 0 d s = d := by
  simp [blendChan, muldiv255_zero_right, muldiv255_255 d h]

/-- A paste cannot make a transparent destination pixel opaque when the mask
is 0 wherever the pasted region covers the pixel. -/
theorem pasteMaskL_alpha_zero (dest src : Img) (m : LImg) (ox oy : Int) (x y : Nat)
    (hd : (dest.px x y).a = 0)
    (hm : 0 ≤ (x : Int) - ox → (x : Int) - ox < src.width → 0 ≤ (y : Int) - oy →
          (y : Int) - oy < src.height →
          m.px ((x : Int) - ox).toNat ((y : Int) - oy).toNat = 0) :
    ((pasteMaskL dest src m ox oy).px x y).a = 0 := by
  simp only [pasteMaskL]
  split
  case isTrue h =>
    obtain ⟨h1, h2, h3, h4⟩ := h
    simp only [hm h1 h2 h3 h4, hd, blendChan, muldiv255_zero_left,
      muldiv255_zero_right, Nat.add_zero]
  case isFalse => exact hd

/-- The fill `apply_fill_with_mask` leaves alpha 0 wherever the mask is 0. -/
theorem apply_fill_alpha_zero (fill : Img) (m : LImg) (x y : Nat)
    (_hx : x < fill.width) (_hy : y < fill.height) (hm : m.px x y = 0) :
    ((apply_fill_with_mask fill m).px x y).a = 0 := by
  refine pasteMaskL_alpha_zero _ _ _ _ _ _ _ rfl ?_
  intro _ _ _ _
  have ex : ((x : Int) - 0).toNat = x := by omega
  have ey : ((y : Int) - 0).toNat = y := by omega
  rw [ex, ey, hm]

-- Closed forms of the three recognized branches of `build_tile_variants`.

theorem build_tile_variants_gradient (mask : LImg) :
    build_tile_variants mask "gradient" =
      some (fun _ => apply_fill_with_mask
        (make_vertical_gradient mask.width mask.height (30, 30, 30) (10, 10, 10)) mask) := rfl

theorem build_tile_variants_glossmix (mask : LImg) :
    build_tile_variants mask "glossmix" =
      some (fun row => if row % 2 = 0
        then apply_fill_with_mask
          (make_vertical_gradient mask.width mask.height (35, 35, 35) (12, 12, 12)) mask
        else recolor_flat mask (28, 28, 28)) := rfl

theorem build_tile_variants_emboss (mask : LImg) :
    build_tile_variants mask "emboss" =
      some (fun _ =>
        pasteMaskL
          (pasteMaskL (newRGBA mask.width mask.height ⟨0, 0, 0, 0⟩)
            (apply_fill_with_mask (newRGBA mask.width mask.height ⟨8, 8, 12, 255⟩)
              (maxFilter3 mask))
            (alphaBand (apply_fill_with_mask (newRGBA mask.width mask.height ⟨8, 8, 12, 255⟩)
              (maxFilter3 mask))) 2 2)
          (apply_fill_with_mask (newRGBA mask.width mask.height ⟨25, 25, 25, 255⟩) mask)
          (alphaBand (apply_fill_with_mask (newRGBA mask.width mask.height ⟨25, 25, 25, 255⟩)
            mask)) 0 0) := rfl

/-- C1 counterexample: for the `emboss` style the tile produced by
`build_tile_variants` is NOT fully transparent wherever the mask alpha is 0 —
the drop shadow (dilated mask pasted at +2,+2) is opaque at (2,2) even though
`c1Mask` has alpha 0 there. -/
theorem c1_counterexample :
    ∃ f, build_tile_variants c1Mask "emboss" = some f ∧
      c1Mask.px 2 2 = 0 ∧ 2 < c1Mask.width ∧ 2 < c1Mask.height ∧
      ((f 0).px 2 2).a ≠ 0 := by
  refine ⟨_, build_tile_variants_emboss c1Mask, by decide, by decide, by decide, by decide⟩

/-- C1 (amended): for every mask and row index, the tile returned by
`build_tile_variants(mask, style)(row)` has exactly the mask's width and
height for all three styles; for `gradient` and `glossmix` it is fully
transparent at every pixel where the mask's alpha is 0, while for `emboss`
this holds at every pixel where additionally the (+2,+2)-shifted dilated
mask (the drop shadow) is absent. -/
theorem c1_amended_thm (mask : LImg) (row x y : Nat)
    (hx : x < mask.width) (hy : y < mask.height) (hm : mask.px x y = 0) :
    (∀ f, build_tile_variants mask "gradient" = some f →
        (f row).width = mask.width ∧ (f row).height = mask.height ∧
        ((f row).px x y).a = 0) ∧
    (∀ f, build_tile_variants mask "glossmix" = some f →
        (f row).width = mask.width ∧ (f row).height = mask.height ∧
        ((f row).px x y).a = 0) ∧
    (∀ f, build_tile_variants mask "emboss" = some f →
        (f row).width = mask.width ∧ (f row).height = mask.height ∧
        ((2 ≤ x → 2 ≤ y → (maxFilter3 mask).px (x - 2) (y - 2) = 0) →
          ((f row).px x y).a = 0)) := by
  refine ⟨?_, ?_, ?_⟩
  · intro f hf
    rw [build_tile_variants_gradient] at hf
    injection hf with hf
    subst hf
    exact ⟨rfl, rfl, apply_fill_alpha_zero _ _ _ _ hx hy hm⟩
  · intro f hf
    rw [build_tile_variants_glossmix] at hf
    injection hf with hf
    subst hf
    by_cases hrow : row % 2 = 0
    · simp only [hrow, if_pos rfl]
      exact ⟨rfl, rfl, apply_fill_alpha_zero _ _ _ _ hx hy hm⟩
    · simp only [if_neg hrow]
      exact ⟨rfl, rfl, apply_fill_alpha_zero _ _ _ _ hx hy hm⟩
  · intro f hf
    rw [build_tile_variants_emboss] at hf
    injection hf with hf
    subst hf
    refine ⟨rfl, rfl, fun hshadow => ?_⟩
    refine pasteMaskL_alpha_zero _ _ _ _ _ _ _ ?_ ?_
    · -- the shadow layer leaves (x, y) transparent
      refine pasteMaskL_alpha_zero _ _ _ _ _ _ _ rfl ?_
      intro h1 h2 h3 h4
      show ((apply_fill_with_mask _ (maxFilter3 mask)).px _ _).a = 0
      refine apply_fill_alpha_zero _ _ _ _ ?_ ?_ ?_
      · have h2' : ((x : Int) - 2) < (mask.width : Int) := h2
        show ((x : Int) - 2).toNat < mask.width
        omega
      · have h4' : ((y : Int) - 2) < (mask.height : Int) := h4
        show ((y : Int) - 2).toNat < mask.height
        omega
      · have ex : ((x : Int) - 2).toNat = x - 2 := by omega
        have ey : ((y : Int) - 2).toNat = y - 2 := by omega
        rw [ex, ey]
        exact hshadow (by omega) (by omega)
    · -- the base layer's own mask is 0 at (x, y)
      intro h1 h2 h3 h4
      have ex : ((x : Int) - 0).toNat = x := by omega
      have ey : ((y : Int) - 0).toNat = y := by omega
      rw [ex, ey]
      show ((apply_fill_with_mask _ mask).px x y).a = 0
      exact apply_fill_alpha_zero _ _ _ _ hx hy hm

/-- Witness for `c1_amended_thm` at the concrete mask `c1WMask`, row 0,
pixel (0,0). -/
theorem c1_amended_witness :
    (∀ f, build_tile_variants c1WMask "gradient" = some f →
        (f 0).width = c1WMask.width ∧ (f 0).height = c1WMask.height ∧
        ((f 0).px 0 0).a = 0) ∧
    (∀ f, build_tile_variants c1WMask "glossmix" = some f →
        (f 0).width = c1WMask.width ∧ (f 0).height = c1WMask.height ∧
        ((f 0).px 0 0).a = 0) ∧
    (∀ f, build_tile_variants c1WMask "emboss" = some f →
        (f 0).width = c1WMask.width ∧ (f 0).height = c1WMask.height ∧
        ((2 ≤ 0 → 2 ≤ 0 → (maxFilter3 c1WMask).px (0 - 2) (0 - 2) = 0) →
          ((f 0).px 0 0).a = 0)) :=
  c1_amended_thm c1WMask 0 0 0 (by decide) (by decide) (by decide)

/-- C9: for every requested size with height ≥ 1, `make_vertical_gradient`
returns an image of exactly that size, every pixel is fully opaque
(alpha 255), and the interpolation denominator `h - 1 if h > 1 else 1` is
never zero. -/
theorem c9_gradient_safe (w h : Nat) (top bottom : Nat × Nat × Nat) (_hh : 1 ≤ h) :
    (make_vertical_gradient w h top bottom).width = w ∧
    (make_vertical_gradient w h top bottom).height = h ∧
    (∀ x y, x < w → y < h → ((make_vertical_gradient w h top bottom).px x y).a = 255) ∧
    0 < gradDenom h := by
  refine ⟨rfl, rfl, fun x y _ _ => rfl, ?_⟩
  unfold gradDenom
  split <;> omega

/-- Witness for `c9_gradient_safe` at the concrete size 4×3. -/
theorem c9_gradient_safe_witness :
    (make_vertical_gradient 4 3 (30, 30, 30) (10, 10, 10)).width = 4 ∧
    (make_vertical_gradient 4 3 (30, 30, 30) (10, 10, 10)).height = 3 ∧
    (∀ x y, x < 4 → y < 3 →
      ((make_vertical_gradient 4 3 (30, 30, 30) (10, 10, 10)).px x y).a = 255) ∧
    0 < gradDenom 3 :=
  c9_gradient_safe 4 3 (30, 30, 30) (10, 10, 10) (by decide)

/-- C6 counterexample: not every malformed color string in the configuration
surface degrades to the default preset — the FP center color string is parsed
at `main` line 403 with bare `int(..., 16)`, so `--fp_center_rgb bogus`
raises `ValueError` (modelled by `none`) and fails the run, while the same
string given to `parse_accent_color` degrades to gold. -/
theorem c6_counterexample :
    fpCenterParse "bogus" = none ∧
    parse_accent_color "bogus" = some (160, 140, 60) := by
  constructor
  · rfl
  · rfl

/-- C6 (amended): `parse_accent_color` maps `"#1f1f1f"` to (31,31,31),
`"200,10,10"` to (200,10,10), `"bogus"` to the gold preset (160,140,60) and
`"none"` to `None`; it returns `None` only for the literal preset `"none"`
(and otherwise some triple, so it never fails); every string that is no
preset and matches neither the hex branch nor the comma branch degrades to
the gold preset. The FP center color of `main` (line 403), however, is
parsed without a fallback and a malformed string there fails the run. -/
theorem c6_amended_thm :
    parse_accent_color "#1f1f1f" = some (31, 31, 31) ∧
    parse_accent_color "200,10,10" = some (200, 10, 10) ∧
    parse_accent_color "bogus" = some (160, 140, 60) ∧
    parse_accent_color "none" = none ∧
    (∀ s, parse_accent_color s = none → s = "none") ∧
    (∀ s, presetColor s = none → hexBranch (stripChars s.data) = none →
      commaBranch (stripChars s.data) = none →
      parse_accent_color s = some (160, 140, 60)) ∧
    fpCenterParse "#1f1f1f" = some (31, 31, 31) := by
  refine ⟨rfl, rfl, rfl, rfl, ?_, ?_, rfl⟩
  · intro s h
    by_cases h1 : s = "gold"
    · subst h1; simp [parse_accent_color, presetColor] at h
    · by_cases h2 : s = "steel"
      · subst h2; simp [parse_accent_color, presetColor] at h
      · by_cases h3 : s = "red"
        · subst h3; simp [parse_accent_color, presetColor] at h
        · by_cases h4 : s = "none"
          · exact h4
          · exfalso
            have hp : presetColor s = none := by
              simp [presetColor, h1, h2, h3, h4]
            cases hhex : hexBranch (stripChars s.data) with
            | some rgb =>
                have e : parse_accent_color s = some rgb := by
                  unfold parse_accent_color
                  rw [hp, hhex]
                rw [e] at h
                exact Option.noConfusion h
            | none =>
                cases hcom : commaBranch (stripChars s.data) with
                | some rgb =>
                    have e : parse_accent_color s = some rgb := by
                      unfold parse_accent_color
                      rw [hp, hhex, hcom]
                    rw [e] at h
                    exact Option.noConfusion h
                | none =>
                    have e : parse_accent_color s = some (160, 140, 60) := by
                      unfold parse_accent_color
                      rw [hp, hhex, hcom]
                    rw [e] at h
                    exact Option.noConfusion h
  · intro s hp hh hc
    unfold parse_accent_color
    rw [hp, hh, hc]

/-- Witness for `c6_amended_thm`'s universal fallback clause at the concrete
string `"17"` (no preset, no `#RRGGBB`, no comma triple). -/
theorem c6_amended_witness :
    parse_accent_color "17" = some (160, 140, 60) :=
  c6_amended_thm.2.2.2.2.2.1 "17" (by decide) (by decide) (by decide)

theorem mceil_le_iff (a : Int) (b : Nat) (hb : 0 < b) (n : Int) :
    mceil a b ≤ n ↔ a ≤ n * b := by
  have hb' : (0 : ℚ) < (b : ℚ) := by exact_mod_cast hb
  unfold mceil
  rw [Int.ceil_le, div_le_iff₀ hb']
  constructor
  · intro h
    exact_mod_cast h
  · intro h
    exact_mod_cast h

theorem le_mceil_iff (a : Int) (b : Nat) (hb : 0 < b) (n : Int) :
    n ≤ mceil a b ↔ (n - 1) * b < a := by
  have hb' : (0 : ℚ) < (b : ℚ) := by exact_mod_cast hb
  constructor
  · intro h
    by_contra hcon
    push_neg at hcon
    have hle : mceil a b ≤ n - 1 := by
      unfold mceil
      rw [Int.ceil_le, div_le_iff₀ hb']
      exact_mod_cast hcon
    omega
  · intro h
    have h1 : ((n : ℚ) - 1) < (a : ℚ) / b := by
      rw [lt_div_iff₀ hb']
      exact_mod_cast h
    have h2 : (n - 1 : Int) < mceil a b := by
      unfold mceil
      rw [Int.lt_ceil]
      push_cast
      exact h1
    omega

/-- C4: for every canvas size and anchor position, the index range
`[min_i..max_i] × [min_j..max_j]` computed by the tessellated weave placer is
wide enough that every canvas pixel lies inside the S×S footprint of some
cell of the range, the odd-row half-step brick offset included. -/
theorem c4_weave_range_covers (screen_w screen_h anchor_x anchor_y : Int)
    (S : Nat) (hS : 0 < S) (px py : Int)
    (hx0 : 0 ≤ px) (hx1 : px < screen_w) (hy0 : 0 ≤ py) (hy1 : py < screen_h) :
    ∃ i j,
      weaveMinI anchor_x S ≤ i ∧ i ≤ weaveMaxI screen_w anchor_x S ∧
      weaveMinJ anchor_y S ≤ j ∧ j ≤ weaveMaxJ screen_h anchor_y S ∧
      (weaveCellPos anchor_x anchor_y S i j).1 ≤ px ∧
      px < (weaveCellPos anchor_x anchor_y S i j).1 + S ∧
      (weaveCellPos anchor_x anchor_y S i j).2 ≤ py ∧
      py < (weaveCellPos anchor_x anchor_y S i j).2 + S := by
  have hSz : (0 : Int) < (S : Int) := by exact_mod_cast hS
  -- the row containing py
  set j : Int := (py - anchor_y) / (S : Int) with hj
  have hjr0 : 0 ≤ (py - anchor_y) % (S : Int) := Int.emod_nonneg _ (by omega)
  have hjr1 : (py - anchor_y) % (S : Int) < (S : Int) := Int.emod_lt_of_pos _ hSz
  have hjdiv : (S : Int) * j + (py - anchor_y) % (S : Int) = py - anchor_y :=
    Int.ediv_add_emod _ _
  have hylo : anchor_y + j * (S : Int) ≤ py := by nlinarith [hjdiv]
  have hyhi : py < anchor_y + j * (S : Int) + (S : Int) := by nlinarith [hjdiv]
  -- the brick offset of that row
  set off : Int := if j % 2 ≠ 0 then ((S / 2 : Nat) : Int) else 0 with hoff
  have hoff0 : 0 ≤ off := by
    rw [hoff]
    split
    · exact Int.natCast_nonneg _
    · omega
  have hoffS : off ≤ (S : Int) := by
    rw [hoff]
    split
    · exact_mod_cast Nat.div_le_self S 2
    · omega
  -- the column containing px within that row
  set i : Int := (px - anchor_x - off) / (S : Int) with hi
  have hir0 : 0 ≤ (px - anchor_x - off) % (S : Int) := Int.emod_nonneg _ (by omega)
  have hir1 : (px - anchor_x - off) % (S : Int) < (S : Int) := Int.emod_lt_of_pos _ hSz
  have hidiv : (S : Int) * i + (px - anchor_x - off) % (S : Int) = px - anchor_x - off :=
    Int.ediv_add_emod _ _
  have hxlo : anchor_x + i * (S : Int) + off ≤ px := by nlinarith [hidiv]
  have hxhi : px < anchor_x + i * (S : Int) + off + (S : Int) := by nlinarith [hidiv]
  have hcell1 : (weaveCellPos anchor_x anchor_y S i j).1 =
      anchor_x + i * (S : Int) + off := by
    rw [hoff]
    show (if j % 2 ≠ 0 then anchor_x + i * (S : Int) + ((S / 2 : Nat) : Int)
      else anchor_x + i * (S : Int)) = _
    by_cases hpar : j % 2 ≠ 0
    · rw [if_pos hpar, if_pos hpar]
    · rw [if_neg hpar, if_neg hpar]
      omega
  have hcell2 : (weaveCellPos anchor_x anchor_y S i j).2 = anchor_y + j * (S : Int) := rfl
  have hcell : (weaveCellPos anchor_x anchor_y S i j).1 = anchor_x + i * (S : Int) + off ∧
      (weaveCellPos anchor_x anchor_y S i j).2 = anchor_y + j * (S : Int) :=
    ⟨hcell1, hcell2⟩
  refine ⟨i, j, ?_, ?_, ?_, ?_, ?_, ?_, ?_, ?_⟩
  · -- min_i ≤ i
    unfold weaveMinI
    have h1 : (-i - 1) * (S : Int) < anchor_x + S := by nlinarith
    have := (le_mceil_iff (anchor_x + S) S hS (-i)).mpr h1
    omega
  · -- i ≤ max_i
    unfold weaveMaxI
    have h1 : (i - 1) * (S : Int) < screen_w - anchor_x := by nlinarith
    exact (le_mceil_iff (screen_w - anchor_x) S hS i).mpr h1
  · -- min_j ≤ j
    unfold weaveMinJ
    have h1 : (-j - 1) * (S : Int) < anchor_y + S := by nlinarith
    have := (le_mceil_iff (anchor_y + S) S hS (-j)).mpr h1
    omega
  · -- j ≤ max_j
    unfold weaveMaxJ
    have h1 : (j - 1) * (S : Int) < screen_h - anchor_y := by nlinarith
    exact (le_mceil_iff (screen_h - anchor_y) S hS j).mpr h1
  · rw [hcell.1]
    exact hxlo
  · rw [hcell.1]
    omega
  · rw [hcell.2]
    exact hylo
  · rw [hcell.2]
    omega

/-- Witness for `c4_weave_range_covers` on a 7×5 canvas with anchor (−2, 3),
cell side 3, at pixel (6, 4). -/
theorem c4_weave_range_covers_witness :
    ∃ i j,
      weaveMinI (-2) 3 ≤ i ∧ i ≤ weaveMaxI 7 (-2) 3 ∧
      weaveMinJ 3 3 ≤ j ∧ j ≤ weaveMaxJ 5 3 3 ∧
      (weaveCellPos (-2) 3 3 i j).1 ≤ 6 ∧
      (6 : Int) < (weaveCellPos (-2) 3 3 i j).1 + 3 ∧
      (weaveCellPos (-2) 3 3 i j).2 ≤ 4 ∧
      (4 : Int) < (weaveCellPos (-2) 3 3 i j).2 + 3 :=
  c4_weave_range_covers 7 5 (-2) 3 3 (by decide) 6 4
    (by decide) (by decide) (by decide) (by decide)

/-- C5: horizontally adjacent weave cells use the two different rotated
variants, and a cell in an odd row sits exactly `S // 2` to the right of the
same-column cell position in an even row. -/
theorem c5_weave_alternation (anchor_x anchor_y : Int) (S : Nat) (i j j' : Int)
    (hodd : j % 2 ≠ 0) (heven : j' % 2 = 0) :
    (∀ i' j'', weaveVariantA (i' + 1) j'' ≠ weaveVariantA i' j'') ∧
    (weaveCellPos anchor_x anchor_y S i j).1 =
      anchor_x + i * S + (S / 2 : Nat) ∧
    (weaveCellPos anchor_x anchor_y S i j').1 = anchor_x + i * S ∧
    (weaveCellPos anchor_x anchor_y S i j).1 =
      (weaveCellPos anchor_x anchor_y S i j').1 + (S / 2 : Nat) := by
  have hvar : ∀ i' j'', weaveVariantA (i' + 1) j'' ≠ weaveVariantA i' j'' := by
    intro i' j''
    unfold weaveVariantA
    rcases Int.emod_two_eq (i' + j'') with h | h
    · have h2 : (i' + 1 + j'') % 2 = 1 := by omega
      simp [h, h2]
    · have h2 : (i' + 1 + j'') % 2 = 0 := by omega
      simp [h, h2]
  have hx1 : (weaveCellPos anchor_x anchor_y S i j).1 =
      anchor_x + i * S + (S / 2 : Nat) := by
    show (if j % 2 ≠ 0 then anchor_x + i * (S : Int) + ((S / 2 : Nat) : Int)
      else anchor_x + i * (S : Int)) = _
    rw [if_pos hodd]
  have hx2 : (weaveCellPos anchor_x anchor_y S i j').1 = anchor_x + i * S := by
    show (if j' % 2 ≠ 0 then anchor_x + i * (S : Int) + ((S / 2 : Nat) : Int)
      else anchor_x + i * (S : Int)) = _
    rw [if_neg (fun hc => hc heven)]
  exact ⟨hvar, hx1, hx2, by omega⟩

/-- Witness for `c5_weave_alternation` with anchor (10, 20), S = 5, column 2,
odd row 3, even row 0. -/
theorem c5_weave_alternation_witness :
    (∀ i' j'', weaveVariantA (i' + 1) j'' ≠ weaveVariantA i' j'') ∧
    (weaveCellPos 10 20 5 2 3).1 = 10 + 2 * 5 + ((5 : Nat) / 2 : Nat) ∧
    (weaveCellPos 10 20 5 2 0).1 = 10 + 2 * 5 ∧
    (weaveCellPos 10 20 5 2 3).1 = (weaveCellPos 10 20 5 2 0).1 + ((5 : Nat) / 2 : Nat) :=
  c5_weave_alternation 10 20 5 2 3 0 (by decide) (by decide)

/-- C7 counterexample: enabling the tessellate toggle alone does NOT run the
tessellated weave placer — with `weave = False, tessellate = True` (the CLI
default) the simple placer runs. -/
theorem c7_counterexample :
    placerChosen false true = PlacerKind.simple ∧
    PlacerKind.simple ≠ PlacerKind.tessellated :=
  ⟨rfl, by decide⟩

/-- C7 (amended): for every configuration exactly one of the two grid placers
paints the field, and the tessellated weave placer is selected exactly when
BOTH the weave and the tessellate toggles are enabled; in every other case
the simple placer runs. -/
theorem c7_amended_thm (weave tessellate : Bool) :
    (placerChosen weave tessellate = .simple ∨
     placerChosen weave tessellate = .tessellated) ∧
    ¬(placerChosen weave tessellate = .simple ∧
      placerChosen weave tessellate = .tessellated) ∧
    (placerChosen weave tessellate = .tessellated ↔ weave = true ∧ tessellate = true) ∧
    (placerChosen weave tessellate = .simple ↔ ¬(weave = true ∧ tessellate = true)) := by
  cases weave <;> cases tessellate <;> exact (by decide)

theorem okPix_mem_gridF {w h : Nat} {alpha : Pt → Nat} {p : Pt}
    (hp : okPix w h alpha p) : p ∈ gridF w h := by
  unfold gridF
  rw [Finset.mem_product, Finset.mem_Ico, Finset.mem_Ico]
  exact ⟨⟨hp.1, hp.2.1⟩, hp.2.2.1, hp.2.2.2.1⟩

theorem gridF_card (w h : Nat) : (gridF w h).card = w * h := by
  unfold gridF
  rw [Finset.card_product, Int.card_Ico, Int.card_Ico]
  simp

/-- A duplicate-free list of valid pixels has at most `w * h` elements. -/
theorem okList_length_le {w h : Nat} {alpha : Pt → Nat} {l : List Pt}
    (hnd : l.Nodup) (hok : ∀ p ∈ l, okPix w h alpha p) : l.length ≤ w * h := by
  have h1 : l.toFinset ⊆ gridF w h := by
    intro p hp
    exact okPix_mem_gridF (hok p (List.mem_toFinset.mp hp))
  have h2 := Finset.card_le_card h1
  rw [List.toFinset_card_of_nodup hnd, gridF_card] at h2
  exact h2

/-- What one neighbour visit does: it appends a fresh duplicate-free batch
`t` of valid untouched pixels to both lists, and afterwards every valid
listed neighbour is visited. -/
theorem visitNbrs_spec (w h : Nat) (alpha : Pt → Nat) (ns : List Pt) :
    ∀ (vis q : List Pt),
      ∃ t, visitNbrs w h alpha vis q ns = (vis ++ t, q ++ t) ∧
        t.Nodup ∧ (∀ p ∈ t, p ∉ vis) ∧
        (∀ p ∈ t, okPix w h alpha p ∧ p ∈ ns) ∧
        (∀ n ∈ ns, okPix w h alpha n → n ∈ vis ++ t) := by
  induction ns with
  | nil =>
      intro vis q
      exact ⟨[], by simp [visitNbrs], by simp, by simp, by simp, by simp⟩
  | cons n ns ih =>
      intro vis q
      by_cases hc : 0 ≤ n.1 ∧ n.1 < (w : Int) ∧ 0 ≤ n.2 ∧ n.2 < (h : Int) ∧
          n ∉ vis ∧ alpha n = 0
      · have hok : okPix w h alpha n :=
          ⟨hc.1, hc.2.1, hc.2.2.1, hc.2.2.2.1, hc.2.2.2.2.2⟩
        have hnv : n ∉ vis := hc.2.2.2.2.1
        obtain ⟨t, ht, tnd, tniv, tok, tcov⟩ := ih (vis ++ [n]) (q ++ [n])
        refine ⟨n :: t, ?_, ?_, ?_, ?_, ?_⟩
        · simp only [visitNbrs, if_pos hc, ht]
          simp [List.append_assoc]
        · refine List.nodup_cons.mpr ⟨?_, tnd⟩
          intro hmem
          exact (tniv n hmem) (by simp)
        · intro p hp
          rcases List.mem_cons.mp hp with rfl | hp
          · exact hnv
          · intro hpv
            exact (tniv p hp) (by simp [hpv])
        · intro p hp
          rcases List.mem_cons.mp hp with rfl | hp
          · exact ⟨hok, by simp⟩
          · obtain ⟨o1, o2⟩ := tok p hp
            exact ⟨o1, by simp [o2]⟩
        · intro m hm hmok
          rcases List.mem_cons.mp hm with rfl | hm
          · simp
          · have hv := tcov m hm hmok
            rw [List.append_assoc] at hv
            simpa using hv
      · obtain ⟨t, ht, tnd, tniv, tok, tcov⟩ := ih vis q
        refine ⟨t, ?_, tnd, tniv, ?_, ?_⟩
        · simp only [visitNbrs, if_neg hc, ht]
        · intro p hp
          obtain ⟨o1, o2⟩ := tok p hp
          exact ⟨o1, by simp [o2]⟩
        · intro m hm hmok
          rcases List.mem_cons.mp hm with rfl | hm
          · have hmv : m ∈ vis := by
              by_contra hmv
              exact hc ⟨hmok.1, hmok.2.1, hmok.2.2.1, hmok.2.2.2.1, hmv,
                hmok.2.2.2.2⟩
            exact List.mem_append_left t hmv
          · exact tcov m hm hmok

/-- The main BFS run lemma: from an invariant state, fuel
`w * h - |marked|` suffices to drain the queue, and the final state again
satisfies the invariant (with an empty queue) and extends the visited list.
In particular the loop never runs out of fuel `w * h`. -/
theorem ffLoop_run (w h : Nat) (alpha : Pt → Nat) (s : Pt) :
    ∀ (fuel : Nat) (q vis mk : List Pt),
      FFInv w h alpha s q vis mk →
      w * h ≤ fuel + mk.length →
      ∃ visF mkF,
        ffLoop w h alpha fuel q vis mk = (mkF, []) ∧
        FFInv w h alpha s [] visF mkF ∧
        (∀ p ∈ vis, p ∈ visF) := by
  intro fuel
  induction fuel with
  | zero =>
      intro q vis mk inv hb
      have hq : q = [] := by
        cases q with
        | nil => rfl
        | cons p rest =>
            exfalso
            have hpv : p ∈ vis := inv.qsub p (by simp)
            have hpg : p ∈ gridF w h := okPix_mem_gridF (inv.ok p hpv)
            have hmksub : mk.toFinset ⊆ gridF w h := by
              intro x hx
              exact okPix_mem_gridF
                (inv.ok x ((inv.part x).mpr (Or.inl (List.mem_toFinset.mp hx))))
            have hcard : (gridF w h).card ≤ mk.toFinset.card := by
              rw [List.toFinset_card_of_nodup inv.mknd, gridF_card]
              omega
            have heq : mk.toFinset = gridF w h :=
              Finset.eq_of_subset_of_card_le hmksub hcard
            have hpmk : p ∈ mk := List.mem_toFinset.mp (heq ▸ hpg)
            exact inv.qmk p (by simp) hpmk
      subst hq
      exact ⟨vis, mk, rfl, inv, fun _ hp => hp⟩
  | succ fuel ih =>
      intro q vis mk inv hb
      cases q with
      | nil => exact ⟨vis, mk, rfl, inv, fun _ hp => hp⟩
      | cons p rest =>
          obtain ⟨t, ht, tnd, tniv, tok, tcov⟩ := visitNbrs_spec w h alpha (nbrs p) vis rest
          have hpv : p ∈ vis := inv.qsub p (by simp)
          have hpmk : p ∉ mk := inv.qmk p (by simp)
          have hqnd := List.nodup_cons.mp inv.qnd
          have hrest_vis : ∀ x ∈ rest, x ∈ vis := fun x hx => inv.qsub x (by simp [hx])
          have hmk_vis : ∀ x ∈ mk, x ∈ vis := fun x hx => (inv.part x).mpr (Or.inl hx)
          have inv' : FFInv w h alpha s (rest ++ t) (vis ++ t) (mk ++ [p]) := by
            constructor
            · exact List.Nodup.append hqnd.2 tnd
                (fun x hx hxt => (tniv x hxt) (hrest_vis x hx))
            · exact List.Nodup.append inv.visnd tnd (fun x hx hxt => (tniv x hxt) hx)
            · refine List.Nodup.append inv.mknd (by simp) ?_
              intro x hx hxp
              have hxp' : x = p := by simpa using hxp
              exact hpmk (hxp' ▸ hx)
            · intro x hx
              rcases List.mem_append.mp hx with hx | hx
              · exact List.mem_append_left t (hrest_vis x hx)
              · exact List.mem_append_right vis hx
            · intro x hx hxmk
              rcases List.mem_append.mp hxmk with hxmk | hxp
              · rcases List.mem_append.mp hx with hx | hx
                · exact inv.qmk x (by simp [hx]) hxmk
                · exact (tniv x hx) (hmk_vis x hxmk)
              · have hxp : x = p := by simpa using hxp
                subst hxp
                rcases List.mem_append.mp hx with hx | hx
                · exact hqnd.1 hx
                · exact (tniv x hx) hpv
            · intro x
              constructor
              · intro hx
                rcases List.mem_append.mp hx with hx | hx
                · rcases (inv.part x).mp hx with hxmk | hxq
                  · exact Or.inl (List.mem_append_left [p] hxmk)
                  · rcases List.mem_cons.mp hxq with rfl | hxr
                    · exact Or.inl (by simp)
                    · exact Or.inr (List.mem_append_left t hxr)
                · exact Or.inr (List.mem_append_right rest hx)
              · intro hx
                rcases hx with hx | hx
                · rcases List.mem_append.mp hx with hxmk | hxp
                  · exact List.mem_append_left t (hmk_vis x hxmk)
                  · have hxp : x = p := by simpa using hxp
                    subst hxp
                    exact List.mem_append_left t hpv
                · rcases List.mem_append.mp hx with hxr | hxt
                  · exact List.mem_append_left t (hrest_vis x hxr)
                  · exact List.mem_append_right vis hxt
            · intro x hx
              rcases List.mem_append.mp hx with hx | hx
              · exact inv.ok x hx
              · exact (tok x hx).1
            · intro x hx
              rcases List.mem_append.mp hx with hx | hx
              · exact inv.reach x hx
              · exact Reach.step (inv.reach p hpv) (tok x hx).2 (tok x hx).1
            · intro x hx n hn hnok
              rcases List.mem_append.mp hx with hx | hxp
              · exact List.mem_append_left t (inv.closed x hx n hn hnok)
              · have hxp : x = p := by simpa using hxp
                subst hxp
                exact tcov n hn hnok
          have hb' : w * h ≤ fuel + (mk ++ [p]).length := by
            simp only [List.length_append, List.length_cons, List.length_nil]
            omega
          obtain ⟨visF, mkF, hrun, invF, hmono⟩ := ih (rest ++ t) (vis ++ t) (mk ++ [p]) inv' hb'
          refine ⟨visF, mkF, ?_, invF, fun x hx => hmono x (List.mem_append_left t hx)⟩
          show ffLoop w h alpha (fuel + 1) (p :: rest) vis mk = (mkF, [])
          simp only [ffLoop]
          rw [ht]
          exact hrun

/-- Extra fuel after the queue has drained changes nothing. -/
theorem ffLoop_fuel_mono (w h : Nat) (alpha : Pt → Nat) :
    ∀ (fuel : Nat) (q vis mk res : List Pt),
      ffLoop w h alpha fuel q vis mk = (res, []) →
      ∀ extra, ffLoop w h alpha (fuel + extra) q vis mk = (res, []) := by
  intro fuel
  induction fuel with
  | zero =>
      intro q vis mk res hrun extra
      have h1 : mk = res ∧ q = [] := by
        have : (mk, q) = (res, ([] : List Pt)) := hrun
        exact ⟨congrArg Prod.fst this, congrArg Prod.snd this⟩
      obtain ⟨rfl, rfl⟩ := h1
      cases extra with
      | zero => rfl
      | succ e => rfl
  | succ fuel ih =>
      intro q vis mk res hrun extra
      cases q with
      | nil =>
          have hres : mk = res := by
            have : ((mk, ([] : List Pt)) : List Pt × List Pt) = (res, []) := hrun
            exact congrArg Prod.fst this
          subst hres
          cases extra with
          | zero => rfl
          | succ e => rfl
      | cons p rest =>
          have hstep : ffLoop w h alpha (fuel + 1 + extra) (p :: rest) vis mk =
              ffLoop w h alpha (fuel + extra)
                (visitNbrs w h alpha vis rest (nbrs p)).2
                (visitNbrs w h alpha vis rest (nbrs p)).1 (mk ++ [p]) := by
            rw [show fuel + 1 + extra = (fuel + extra) + 1 from by omega]
            simp only [ffLoop]
          rw [hstep]
          simp only [ffLoop] at hrun
          exact ih _ _ _ _ hrun extra

theorem extendSeeds_mem (cx cy : Int) :
    ∀ (rs : List Int) (seeds : List Pt) (p : Pt),
      p ∈ extendSeeds cx cy rs seeds →
      p ∈ seeds ∨ ∃ r ∈ rs,
        p ∈ [(cx + r, cy), (cx - r, cy), (cx, cy + r), (cx, cy - r)] := by
  intro rs
  induction rs with
  | nil =>
      intro seeds p hp
      simp only [extendSeeds] at hp
      exact Or.inl hp
  | cons r rs ih =>
      intro seeds p hp
      simp only [extendSeeds] at hp
      by_cases hl :
          (seeds ++ [(cx + r, cy), (cx - r, cy), (cx, cy + r), (cx, cy - r)]).length > 50
      · rw [if_pos hl] at hp
        rcases List.mem_append.mp hp with hp | hp
        · exact Or.inl hp
        · exact Or.inr ⟨r, by simp, hp⟩
      · rw [if_neg hl] at hp
        rcases ih _ p hp with hp | ⟨r', hr', hp⟩
        · rcases List.mem_append.mp hp with hp | hp
          · exact Or.inl hp
          · exact Or.inr ⟨r, by simp, hp⟩
        · exact Or.inr ⟨r', by simp [hr'], hp⟩

theorem ringRadii_bounds (stop : Nat) (r : Int) (hr : r ∈ ringRadii stop) :
    1 ≤ r ∧ r < (stop : Int) := by
  unfold ringRadii at hr
  rcases List.mem_map.mp hr with ⟨k, hk, rfl⟩
  rw [List.mem_range] at hk
  omega

/-- Every candidate seed lies inside a non-empty image (the ring radii stay
under `min(w,h)/6`, well within the half-extent from the center). -/
theorem seedList_bounds (w h : Nat) (hw : 1 ≤ w) (hh : 1 ≤ h) :
    ∀ p ∈ seedList w h,
      0 ≤ p.1 ∧ p.1 < (w : Int) ∧ 0 ≤ p.2 ∧ p.2 < (h : Int) := by
  intro p hp
  unfold seedList at hp
  rcases extendSeeds_mem _ _ _ _ p hp with hp | ⟨r, hr, hp4⟩
  · have hc : p = (((w / 2 : Nat) : Int), ((h / 2 : Nat) : Int)) := by simpa using hp
    obtain ⟨h1, h2⟩ := Prod.ext_iff.mp hc
    rw [h1, h2]
    refine ⟨?_, ?_, ?_, ?_⟩ <;> omega
  · have hrb := ringRadii_bounds _ r hr
    have hm1 : min w h / 6 ≤ w / 6 := Nat.div_le_div_right (Nat.min_le_left _ _)
    have hm2 : min w h / 6 ≤ h / 6 := Nat.div_le_div_right (Nat.min_le_right _ _)
    simp only [List.mem_cons, List.not_mem_nil, or_false] at hp4
    rcases hp4 with rfl | rfl | rfl | rfl <;>
      (refine ⟨?_, ?_, ?_, ?_⟩ <;> · dsimp only; omega)

theorem find?_congr_on {α : Type} (f g : α → Bool) :
    ∀ l : List α, (∀ x ∈ l, f x = g x) → l.find? f = l.find? g := by
  intro l
  induction l with
  | nil => intro _; rfl
  | cons x xs ih =>
      intro hfg
      have hx := hfg x (by simp)
      cases hgx : g x with
      | true =>
          rw [List.find?_cons_of_pos _ (hx.trans hgx), List.find?_cons_of_pos _ hgx]
      | false =>
          rw [List.find?_cons_of_neg _ (by simp [hx, hgx]),
            List.find?_cons_of_neg _ (by simp [hgx])]
          exact ih (fun y hy => hfg y (by simp [hy]))

/-- On a non-empty image the code's seed test (bounds and alpha 0) picks the
same seed as the spec's phrasing (first candidate whose alpha is exactly 0),
because every candidate is in bounds. -/
theorem findSeed_eq_seedFound (a : LImg) (hw : 1 ≤ a.width) (hh : 1 ≤ a.height) :
    findSeed a = seedFound a := by
  unfold findSeed seedFound
  apply find?_congr_on
  intro p hp
  have hb := seedList_bounds a.width a.height hw hh p hp
  rw [decide_eq_decide]
  constructor
  · intro hc
    exact hc.2.2.2.2
  · intro hc
    exact ⟨hb.1, hb.2.1, hb.2.2.1, hb.2.2.2, hc⟩

/-- C10: the BFS of `flood_fill_inner_hole` terminates within
`width * height` loop iterations: with that much fuel the queue is empty,
and any extra fuel leaves the final state unchanged. -/
theorem c10_flood_fill_terminates (a : LImg) :
    (floodRun a).2 = [] ∧
    ∀ extra : Nat, floodRunFuel a (a.width * a.height + extra) = floodRun a := by
  unfold floodRun floodRunFuel
  cases hseed : findSeed a with
  | none => exact ⟨rfl, fun _ => rfl⟩
  | some s =>
      have hsOk : okPix a.width a.height (alphaOf a) s := by
        have h1 := hseed
        unfold findSeed at h1
        have h2 := List.find?_some h1
        have h3 : decide (0 ≤ s.1 ∧ s.1 < (a.width : Int) ∧ 0 ≤ s.2 ∧
            s.2 < (a.height : Int) ∧ alphaOf a s = 0) = true := h2
        exact of_decide_eq_true h3
      have inv0 : FFInv a.width a.height (alphaOf a) s [s] [s] [] := by
        constructor
        · simp
        · simp
        · simp
        · intro p hp
          exact hp
        · intro p _
          simp
        · intro p
          simp
        · intro p hp
          have hps : p = s := by simpa using hp
          subst hps
          exact hsOk
        · intro p hp
          have hps : p = s := by simpa using hp
          subst hps
          exact Reach.base
        · intro p hp
          simp at hp
      obtain ⟨visF, mkF, hrun, invF, hmono⟩ :=
        ffLoop_run a.width a.height (alphaOf a) s (a.width * a.height) [s] [s] []
          inv0 (by simp)
      constructor
      · show (ffLoop a.width a.height (alphaOf a) (a.width * a.height) [s] [s] []).2 = []
        rw [hrun]
      · intro extra
        show ffLoop a.width a.height (alphaOf a) (a.width * a.height + extra) [s] [s] [] =
          ffLoop a.width a.height (alphaOf a) (a.width * a.height) [s] [s] []
        rw [hrun, ffLoop_fuel_mono _ _ _ _ _ _ _ _ hrun extra]

/-- C2: `flood_fill_inner_hole` returns a mask of the image's dimensions;
when a candidate seed with alpha exactly 0 exists, the pixels marked 255 are
exactly those 4-connected-reachable from the first such seed through
alpha-0 pixels (so no pixel with alpha > 0 is ever marked); with no such
seed the mask is all-zero. -/
theorem c2_flood_fill_spec (a : LImg) (hw : 1 ≤ a.width) (hh : 1 ≤ a.height) :
    (flood_fill_inner_hole a).width = a.width ∧
    (flood_fill_inner_hole a).height = a.height ∧
    (∀ s, seedFound a = some s →
      ∀ x y, x < a.width → y < a.height →
        ((flood_fill_inner_hole a).px x y = 255 ↔
          Reach a.width a.height (alphaOf a) s ((x : Int), (y : Int))) ∧
        ((flood_fill_inner_hole a).px x y = 255 → a.px x y = 0)) ∧
    (seedFound a = none → ∀ x y, (flood_fill_inner_hole a).px x y = 0) := by
  have hfs := findSeed_eq_seedFound a hw hh
  refine ⟨?_, ?_, ?_, ?_⟩
  · unfold flood_fill_inner_hole
    cases findSeed a <;> rfl
  · unfold flood_fill_inner_hole
    cases findSeed a <;> rfl
  · intro s hs x y hx hy
    have hseed : findSeed a = some s := by rw [hfs]; exact hs
    have hsOk : okPix a.width a.height (alphaOf a) s := by
      have h1 := hseed
      unfold findSeed at h1
      have h2 := List.find?_some h1
      have h3 : decide (0 ≤ s.1 ∧ s.1 < (a.width : Int) ∧ 0 ≤ s.2 ∧
          s.2 < (a.height : Int) ∧ alphaOf a s = 0) = true := h2
      exact of_decide_eq_true h3
    have inv0 : FFInv a.width a.height (alphaOf a) s [s] [s] [] := by
      constructor
      · simp
      · simp
      · simp
      · intro p hp
        exact hp
      · intro p _
        simp
      · intro p
        simp
      · intro p hp
        have hps : p = s := by simpa using hp
        subst hps
        exact hsOk
      · intro p hp
        have hps : p = s := by simpa using hp
        subst hps
        exact Reach.base
      · intro p hp
        simp at hp
    obtain ⟨visF, mkF, hrun, invF, hmono⟩ :=
      ffLoop_run a.width a.height (alphaOf a) s (a.width * a.height) [s] [s] []
        inv0 (by simp)
    have hpx0 : (flood_fill_inner_hole a).px x y =
        if ((x : Int), (y : Int)) ∈
            (ffLoop a.width a.height (alphaOf a) (a.width * a.height) [s] [s] []).1
          then 255 else 0 := by
      unfold flood_fill_inner_hole
      rw [hseed]
    have hpx : (flood_fill_inner_hole a).px x y =
        if ((x : Int), (y : Int)) ∈ mkF then 255 else 0 := by
      rw [hpx0, hrun]
    have hmarked : ∀ p, Reach a.width a.height (alphaOf a) s p → p ∈ mkF := by
      intro p hp
      induction hp with
      | base =>
          have hsv : s ∈ visF := hmono s (by simp)
          rcases (invF.part s).mp hsv with hcase | hcase
          · exact hcase
          · simp at hcase
      | step hp hn hok ihp =>
          have hnv := invF.closed _ ihp _ hn hok
          rcases (invF.part _).mp hnv with hcase | hcase
          · exact hcase
          · simp at hcase
    constructor
    · rw [hpx]
      constructor
      · intro h255
        have hmem : ((x : Int), (y : Int)) ∈ mkF := by
          by_contra hmem
          rw [if_neg hmem] at h255
          omega
        exact invF.reach _ ((invF.part _).mpr (Or.inl hmem))
      · intro hreach
        rw [if_pos (hmarked _ hreach)]
    · intro h255
      rw [hpx] at h255
      have hmem : ((x : Int), (y : Int)) ∈ mkF := by
        by_contra hmem
        rw [if_neg hmem] at h255
        omega
      have hok := invF.ok _ ((invF.part _).mpr (Or.inl hmem))
      have ha := hok.2.2.2.2
      simpa [alphaOf] using ha
  · intro hnone x y
    have hseed : findSeed a = none := by rw [hfs]; exact hnone
    unfold flood_fill_inner_hole
    rw [hseed]

/-- Witness for `c2_flood_fill_spec` at the concrete image `c2WImg`. -/
theorem c2_flood_fill_spec_witness :
    (flood_fill_inner_hole c2WImg).width = c2WImg.width ∧
    (flood_fill_inner_hole c2WImg).height = c2WImg.height ∧
    (∀ s, seedFound c2WImg = some s →
      ∀ x y, x < c2WImg.width → y < c2WImg.height →
        ((flood_fill_inner_hole c2WImg).px x y = 255 ↔
          Reach c2WImg.width c2WImg.height (alphaOf c2WImg) s ((x : Int), (y : Int))) ∧
        ((flood_fill_inner_hole c2WImg).px x y = 255 → c2WImg.px x y = 0)) ∧
    (seedFound c2WImg = none → ∀ x y, (flood_fill_inner_hole c2WImg).px x y = 0) :=
  c2_flood_fill_spec c2WImg (by decide) (by decide)

/-- The tinted outline keeps alpha 0 wherever the accent alpha is 0 — for
`emboss` under the extra assumption that the shifted drop shadow is absent
there. -/
theorem style_tinted_alpha_zero (mask_rgba : Img) (style : String)
    (rgb : Nat × Nat × Nat) (x y : Nat)
    (hx : x < mask_rgba.width) (hy : y < mask_rgba.height)
    (ha : (mask_rgba.px x y).a = 0)
    (hsh : style = "emboss" → 2 ≤ x → 2 ≤ y →
      (maxFilter3 (alphaBand mask_rgba)).px (x - 2) (y - 2) = 0) :
    ((style_tinted_accent mask_rgba style rgb).px x y).a = 0 := by
  unfold style_tinted_accent
  by_cases h1 : style = "gradient"
  · rw [if_pos h1]
    exact apply_fill_alpha_zero _ _ _ _ hx hy ha
  · rw [if_neg h1]
    by_cases h2 : style = "glossmix"
    · rw [if_pos h2]
      exact apply_fill_alpha_zero _ _ _ _ hx hy ha
    · rw [if_neg h2]
      by_cases h3 : style = "emboss"
      · rw [if_pos h3]
        refine pasteMaskL_alpha_zero _ _ _ _ _ _ _ ?_ ?_
        · refine pasteMaskL_alpha_zero _ _ _ _ _ _ _ rfl ?_
          intro hx1 hx2 hy1 hy2
          show ((apply_fill_with_mask _ (maxFilter3 (alphaBand mask_rgba))).px _ _).a = 0
          refine apply_fill_alpha_zero _ _ _ _ ?_ ?_ ?_
          · have hx2' : ((x : Int) - 2) < (mask_rgba.width : Int) := hx2
            show ((x : Int) - 2).toNat < mask_rgba.width
            omega
          · have hy2' : ((y : Int) - 2) < (mask_rgba.height : Int) := hy2
            show ((y : Int) - 2).toNat < mask_rgba.height
            omega
          · have ex : ((x : Int) - 2).toNat = x - 2 := by omega
            have ey : ((y : Int) - 2).toNat = y - 2 := by omega
            rw [ex, ey]
            exact hsh h3 (by omega) (by omega)
        · intro _ _ _ _
          have ex : ((x : Int) - 0).toNat = x := by omega
          have ey : ((y : Int) - 0).toNat = y := by omega
          rw [ex, ey]
          show ((apply_fill_with_mask _ (alphaBand mask_rgba)).px x y).a = 0
          exact apply_fill_alpha_zero _ _ _ _ hx hy ha
      · rw [if_neg h3]
        exact apply_fill_alpha_zero _ _ _ _ hx hy ha

/-- C3 counterexample: with the `emboss` outline style the accent image is
NOT fully transparent outside the silhouette and its enclosed hole — at
pixel (7,7) of `c3Img` (alpha 0, not in the hole) the drop shadow leaves a
fully opaque pixel. -/
theorem c3_counterexample :
    c3Img.width = 9 ∧ c3Img.height = 9 ∧
    (alphaBand c3Img).px 7 7 = 0 ∧
    (flood_fill_inner_hole (alphaBand c3Img)).px 7 7 = 0 ∧
    ((build_accent_with_center c3Img (31, 31, 31) (some "emboss")
      (160, 140, 60)).px 7 7).a ≠ 0 := by
  refine ⟨rfl, rfl, rfl, ?_, ?_⟩
  · decide
  · decide

/-- C3 (amended): the accent image produced by `build_accent_with_center`
has exactly the requested size (the rasterizer renders at `size`), and is
fully transparent at every pixel that lies neither in the shape's silhouette
nor in its enclosed hole — except that with the `emboss` outline style the
(+2,+2)-shifted dilated drop shadow may additionally be opaque. -/
theorem c3_amended_thm (img : Img) (size : Nat) (center outline_rgb : Nat × Nat × Nat)
    (ostyle : Option String) (hw : img.width = size) (hh : img.height = size) :
    (build_accent_with_center img center ostyle outline_rgb).width = size ∧
    (build_accent_with_center img center ostyle outline_rgb).height = size ∧
    ∀ x y, x < size → y < size →
      (img.px x y).a = 0 →
      (flood_fill_inner_hole (alphaBand img)).px x y = 0 →
      (ostyle = some "emboss" →
        (2 ≤ x → 2 ≤ y → (maxFilter3 (alphaBand img)).px (x - 2) (y - 2) = 0) →
        ((build_accent_with_center img center ostyle outline_rgb).px x y).a = 0) ∧
      (ostyle ≠ some "emboss" →
        ((build_accent_with_center img center ostyle outline_rgb).px x y).a = 0) := by
  refine ⟨hw, hh, ?_⟩
  intro x y hx hy ha hf
  rw [← hw] at hx
  rw [← hh] at hy
  have hinner : ∀ (ol : Img),
      (∀ h1 : 0 ≤ (x : Int) - 0, ∀ h2 : ((x : Int) - 0) < (ol.width : Int),
       ∀ h3 : 0 ≤ (y : Int) - 0, ∀ h4 : ((y : Int) - 0) < (ol.height : Int),
        (alphaBand ol).px ((x : Int) - 0).toNat ((y : Int) - 0).toNat = 0) →
      ((pasteMaskL
        (pasteMaskL (newRGBA img.width img.height ⟨0, 0, 0, 0⟩)
          (pasteMaskL (newRGBA img.width img.height ⟨0, 0, 0, 0⟩)
            (newRGBA img.width img.height ⟨center.1, center.2.1, center.2.2, 255⟩)
            (flood_fill_inner_hole (alphaBand img)) 0 0)
          (alphaBand (pasteMaskL (newRGBA img.width img.height ⟨0, 0, 0, 0⟩)
            (newRGBA img.width img.height ⟨center.1, center.2.1, center.2.2, 255⟩)
            (flood_fill_inner_hole (alphaBand img)) 0 0)) 0 0)
        ol (alphaBand ol) 0 0).px x y).a = 0 := by
    intro ol hol
    refine pasteMaskL_alpha_zero _ _ _ _ _ _ _ ?_ (fun h1 h2 h3 h4 => hol h1 h2 h3 h4)
    refine pasteMaskL_alpha_zero _ _ _ _ _ _ _ rfl ?_
    intro _ _ _ _
    have ex : ((x : Int) - 0).toNat = x := by omega
    have ey : ((y : Int) - 0).toNat = y := by omega
    rw [ex, ey]
    show ((pasteMaskL _ _ (flood_fill_inner_hole (alphaBand img)) 0 0).px x y).a = 0
    refine pasteMaskL_alpha_zero _ _ _ _ _ _ _ rfl ?_
    intro _ _ _ _
    rw [ex, ey]
    exact hf
  cases ostyle with
  | none =>
      constructor
      · intro heq
        exact Option.noConfusion heq
      · intro _
        refine hinner _ ?_
        intro _ _ _ _
        have ex : ((x : Int) - 0).toNat = x := by omega
        have ey : ((y : Int) - 0).toNat = y := by omega
        rw [ex, ey]
        show ((pasteMaskL _ _ (alphaBand img) 0 0).px x y).a = 0
        refine pasteMaskL_alpha_zero _ _ _ _ _ _ _ rfl ?_
        intro _ _ _ _
        rw [ex, ey]
        exact ha
  | some st =>
      have houtline : ∀ (hshadow : st = "emboss" → 2 ≤ x → 2 ≤ y →
          (maxFilter3 (alphaBand img)).px (x - 2) (y - 2) = 0),
          ((build_accent_with_center img center (some st) outline_rgb).px x y).a = 0 := by
        intro hshadow
        refine hinner _ ?_
        intro _ _ _ _
        have ex : ((x : Int) - 0).toNat = x := by omega
        have ey : ((y : Int) - 0).toNat = y := by omega
        rw [ex, ey]
        show ((pasteMaskL _ (style_tinted_accent img st outline_rgb)
          (alphaBand (style_tinted_accent img st outline_rgb)) 0 0).px x y).a = 0
        refine pasteMaskL_alpha_zero _ _ _ _ _ _ _ rfl ?_
        intro _ _ _ _
        rw [ex, ey]
        show ((style_tinted_accent img st outline_rgb).px x y).a = 0
        exact style_tinted_alpha_zero _ _ _ _ _ hx hy ha hshadow
      constructor
      · intro heq hshadow
        have hst : st = "emboss" := by
          injection heq
        exact houtline (fun _ => hshadow)
      · intro hne
        have hst : st ≠ "emboss" := fun hc => hne (by rw [hc])
        exact houtline (fun habs => absurd habs hst)

/-- Witness for `c3_amended_thm` at the concrete image `c3WImg`, size 4,
flat (no-style) outline. -/
theorem c3_amended_witness :
    (build_accent_with_center c3WImg (31, 31, 31) none (160, 140, 60)).width = 4 ∧
    (build_accent_with_center c3WImg (31, 31, 31) none (160, 140, 60)).height = 4 ∧
    ∀ x y, x < 4 → y < 4 →
      (c3WImg.px x y).a = 0 →
      (flood_fill_inner_hole (alphaBand c3WImg)).px x y = 0 →
      ((none = some "emboss" →
        (2 ≤ x → 2 ≤ y → (maxFilter3 (alphaBand c3WImg)).px (x - 2) (y - 2) = 0) →
        ((build_accent_with_center c3WImg (31, 31, 31) none (160, 140, 60)).px x y).a = 0) ∧
      ((none : Option String) ≠ some "emboss" →
        ((build_accent_with_center c3WImg (31, 31, 31) none (160, 140, 60)).px x y).a = 0)) :=
  c3_amended_thm c3WImg 4 (31, 31, 31) (160, 140, 60) none rfl rfl

/-- C8: the full pipeline is a pure function of the configuration and of the
external collaborators (the shape rasterizer and the resampling primitives):
two runs with identical inputs produce identical output images — no step
depends on randomness or on any other input. The PNG bytes written at the
end are a pure function of this image. -/
theorem c8_deterministic (ext1 ext2 : Externals) (cfg1 cfg2 : Config)
    (hext : ext1 = ext2) (hcfg : cfg1 = cfg2) :
    build_wallpaper ext1 cfg1 = build_wallpaper ext2 cfg2 := by
  subst hext
  subst hcfg
  rfl

/-- Witness for `c8_deterministic` at the concrete inputs `extW`, `cfgW`. -/
theorem c8_deterministic_witness :
    build_wallpaper extW cfgW = build_wallpaper extW cfgW :=
  c8_deterministic extW extW cfgW cfgW rfl rfl

/-- Witness for `c7_amended_thm` at the concrete toggles
`weave = true, tessellate = true`. -/
theorem c7_amended_witness :
    (placerChosen true true = .simple ∨ placerChosen true true = .tessellated) ∧
    ¬(placerChosen true true = .simple ∧ placerChosen true true = .tessellated) ∧
    (placerChosen true true = .tessellated ↔ true = true ∧ true = true) ∧
    (placerChosen true true = .simple ↔ ¬(true = true ∧ true = true)) :=
  c7_amended_thm true true

/-- Witness for `c10_flood_fill_terminates` at the concrete image
`c10WImg`. -/
theorem c10_flood_fill_terminates_witness :
    (floodRun c10WImg).2 = [] ∧
    ∀ extra : Nat,
      floodRunFuel c10WImg (c10WImg.width * c10WImg.height + extra) = floodRun c10WImg :=
  c10_flood_fill_terminates c10WImg

end GosChic

